import Mathlib

/-!
Verification of the go-reusables service-lifecycle supervisor
(package `service`: `Manager`, `serviceState`, the `Service` interface).

The Go code is shallowly embedded: every Go struct becomes a Lean
structure and every Manager method becomes a pure function from the
manager state to a new manager state, a list of observable events and an
optional error.  Concurrency is made deterministic in the canonical
interleaving of the code:

* a service's `Start` goroutine either resolves within the 10ms start
  probe window (behaviors `failFast` / `exitCleanFast`) or stays blocked
  until its context is cancelled (`runUntilCancel`) or until it
  spontaneously returns later (`runThenExit`);
* a blocked goroutine's unwind (the tail of the `go func` body that
  writes the record's state) is realized at the `wg.Wait()` call that
  awaits it, or by an explicit asynchronous completion step
  (`taskCompletes`) modelling the goroutine returning on its own;
* `o.waitGroup.Wait()` in `Shutdown` is a pure synchronization point:
  by then every goroutine has been individually awaited, so it is
  modelled as the identity on the record list.

Errors built with `fmt.Errorf` are modelled by one constructor per
format string.  Every write to a record's `state` field emits a
`trans` event, every goroutine launch a `dispatch` event, every
`service.Stop` call a `stopCall` event and every `Shutdown` invocation
a `shutdownCall` event carrying the context it was given.
-/

namespace Svc

/-- Error messages (`fmt.Errorf`) are modelled as strings. -/
abbrev Err := String

/-- Model of `ServiceState` from the Go source: Stopped, Starting, Running,
Stopping, Error. -/
inductive ServiceState where
  | stopped
  | starting
  | running
  | stopping
  | error
deriving DecidableEq, Repr

/-- The deterministic behavior of a service's blocking `Start` method:
fail within the probe window, return cleanly within the probe window,
block until the context is cancelled and then return the given result,
or run past the probe window and later return the given result on its
own. -/
inductive TaskBehavior where
  | failFast (e : Err)
  | exitCleanFast
  | runUntilCancel (r : Option Err)
  | runThenExit (r : Option Err)
deriving DecidableEq, Repr

/-- The value `Start` eventually returns for each behavior. -/
def TaskBehavior.result : TaskBehavior → Option Err
  | .failFast e => some e
  | .exitCleanFast => none
  | .runUntilCancel r => r
  | .runThenExit r => r

/-- The `Service` interface: a name, the behavior of its blocking
`Start`, and the result of its `Stop` (`some e` when `Stop` returns the
error `e`, `none` when it returns nil). -/
structure Service where
  name : String
  behavior : TaskBehavior
  stopResult : Option Err
deriving DecidableEq, Repr

/-- A `context.Context` as passed around by the manager: the background
context (no deadline), a timeout-bounded context, or the caller's
context. -/
inductive Ctx where
  | background
  | withTimeout (millis : Nat)
  | caller
deriving DecidableEq, Repr

/-- Model of `serviceState` from the Go source: the per-service record.
`cancelled` models the record's derived context having been cancelled,
`taskRunning` models the `wg` counter being positive (the `Start`
goroutine was launched and has not yet returned). -/
structure ServiceRec where
  service : Service
  state : ServiceState
  lastError : Option Err
  cancelled : Bool
  taskRunning : Bool
deriving DecidableEq, Repr

/-- Model of `ServiceSequence` from `interfaces.go`. -/
inductive ServiceSequence where
  | SequenceNone
  | SequenceFIFO
  | SequenceLIFO
deriving DecidableEq, Repr

/-- The `Manager` struct.  `services` is the ordered registry; the
`serviceMap` name index is derived from it by lookup.  `serviceSequence`
is the field assigned by `WithServiceSequence`; no lifecycle method
reads it. -/
structure Manager where
  services : List ServiceRec
  shutdownTimeout : Nat
  serviceSequence : ServiceSequence
  rootCancelled : Bool
deriving DecidableEq, Repr

/-- Model of `ServiceInfo` from the Go source, as returned by `GetStatus`. -/
structure ServiceInfo where
  name : String
  state : ServiceState
  error : Option Err
deriving DecidableEq, Repr

/-- Structured view of the manager's `fmt.Errorf` errors, one
constructor per format string. -/
inductive MError where
  | duplicateName (name : String)
  | notFound (name : String)
  | alreadyRunning (name : String)
  | notRunning (name : String)
  | startFailed (name : String) (wrapped : Option Err)
  | stopFailed (name : String) (wrapped : Err)
  | stopErrors (errs : List (String × Err))
deriving DecidableEq, Repr

/-- Observable events of a manager operation: a write to a record's
`state` field (old value, new value), a goroutine launch, a
`service.Stop` invocation, a `Shutdown` invocation with its context. -/
inductive Event where
  | trans (name : String) (s₁ s₂ : ServiceState)
  | dispatch (name : String)
  | stopCall (name : String)
  | shutdownCall (c : Ctx)
deriving DecidableEq, Repr

/-- Go `setState`: write the record's state and record the transition. -/
def setState (r : ServiceRec) (s : ServiceState) : ServiceRec × Event :=
  ({ r with state := s }, .trans r.service.name r.state s)

/-- The tail of the `Start` goroutine once `service.Start` has
returned: on an error, `setError` then `setState(StateError)`; on nil,
`setState(StateStopped)`.  Clears `taskRunning` (the deferred
`wg.Done()`). -/
def taskReturn (r : ServiceRec) : ServiceRec × List Event :=
  match r.service.behavior.result with
  | some e =>
    let (r', ev) := setState { r with lastError := some e, taskRunning := false } .error
    (r', [ev])
  | none =>
    let (r', ev) := setState { r with taskRunning := false } .stopped
    (r', [ev])

/-- Go `state.wg.Wait()`: if the goroutine is still running (it was
blocked and has been unblocked by the preceding `cancel()`), its unwind
completes here; otherwise the wait returns immediately. -/
def waitUnwind (r : ServiceRec) : ServiceRec × List Event :=
  if r.taskRunning then taskReturn r else (r, [])

/-- The common body of `Manager.Start`'s loop and `StartService` once
the running-state guard has passed: `setState(StateStarting)`, launch
the goroutine, sleep through the probe window (during which fast
behaviors resolve), then check for `StateError`; on failure return the
`startFailed` error wrapping `getError()`, otherwise
`setState(StateRunning)`. -/
def startProbe (r : ServiceRec) : ServiceRec × List Event × Option MError :=
  let (r₁, e₁) := setState r .starting
  let d := Event.dispatch r₁.service.name
  let (r₂, evs₂) :=
    match r₁.service.behavior with
    | .failFast e =>
      let (r', ev) := setState { r₁ with lastError := some e, taskRunning := false } .error
      (r', [ev])
    | .exitCleanFast =>
      let (r', ev) := setState { r₁ with taskRunning := false } .stopped
      (r', [ev])
    | _ => ({ r₁ with taskRunning := true }, [])
  if r₂.state = .error then
    (r₂, e₁ :: d :: evs₂, some (.startFailed r₂.service.name r₂.lastError))
  else
    let (r₃, e₃) := setState r₂ .running
    (r₃, e₁ :: d :: (evs₂ ++ [e₃]), none)

/-- One iteration of `Manager.Start`'s loop: skip records already
Running, otherwise run the start-probe protocol. -/
def startOne (r : ServiceRec) : ServiceRec × List Event × Option MError :=
  if r.state = .running then (r, [], none) else startProbe r

/-- Loop of `Manager.Start` over the registry in registration order,
aborting at the first detected failure (records after it are left
untouched). -/
def startLoop : List ServiceRec → List ServiceRec × List Event × Option MError
  | [] => ([], [], none)
  | r :: rest =>
    let (r', evs, res) := startOne r
    match res with
    | some e => (r' :: rest, evs, some e)
    | none =>
      let (rest', evs', res') := startLoop rest
      (r' :: rest', evs ++ evs', res')

/-- One iteration of `stopAllServices`' loop: skip records already
Stopped; otherwise `setState(StateStopping)`, cancel the record's
context, call `service.Stop` (recording its error, if any), then
`state.wg.Wait()`. -/
def stopOne (r : ServiceRec) : ServiceRec × List Event × Option (String × Err) :=
  if r.state = .stopped then (r, [], none)
  else
    let (r₁, e₁) := setState r .stopping
    let r₂ := { r₁ with cancelled := true }
    let sc := Event.stopCall r₂.service.name
    let (r₃, evs₃, err) :=
      match r₂.service.stopResult with
      | some e =>
        let (r', ev) := setState { r₂ with lastError := some e } .error
        (r', [ev], some (r'.service.name, e))
      | none => (r₂, [], none)
    let (r₄, evs₄) := waitUnwind r₃
    (r₄, e₁ :: sc :: (evs₃ ++ evs₄), err)

/-- Loop body of `stopAllServices` over an already-reversed record list,
collecting each record's stop error in iteration order. -/
def stopLoopRev : List ServiceRec → List ServiceRec × List Event × List (String × Err)
  | [] => ([], [], [])
  | r :: rest =>
    let (r', evs, err) := stopOne r
    let (rest', evs', errs) := stopLoopRev rest
    (r' :: rest', evs ++ evs', err.toList ++ errs)

/-- Model of `Manager.stopAllServices`: stop every record in reverse
registration order, never short-circuiting, and aggregate the collected
stop errors into a single error at the end. -/
def stopAllServices (svcs : List ServiceRec) :
    List ServiceRec × List Event × Option MError :=
  let (rev', evs, errs) := stopLoopRev svcs.reverse
  (rev'.reverse, evs, if errs.isEmpty then none else some (.stopErrors errs))

/-- Look up a record by name: the `serviceMap` index. -/
def findRec (svcs : List ServiceRec) (name : String) : Option ServiceRec :=
  svcs.find? (fun r => r.service.name = name)

/-- Replace the (unique) record with the given name. -/
def replaceRec : List ServiceRec → String → ServiceRec → List ServiceRec
  | [], _, _ => []
  | r :: rest, n, r' =>
    if r.service.name = n then r' :: rest else r :: replaceRec rest n r'

/-- Model of `Manager.Register`: fail on a duplicate name, otherwise append a
Stopped record whose context is derived from the manager's root
context. -/
def Register (m : Manager) (svc : Service) : Manager × Option MError :=
  if svc.name ∈ m.services.map (fun r => r.service.name) then
    (m, some (.duplicateName svc.name))
  else
    ({ m with
        services := m.services ++
          [{ service := svc, state := .stopped, lastError := none,
             cancelled := m.rootCancelled, taskRunning := false }] },
     none)

/-- Model of `Manager.Start`: run the start loop over the registry in
registration order; on a detected failure run `stopAllServices` as
rollback (discarding its error) and return the `startFailed` error. -/
def Start (m : Manager) : Manager × List Event × Option MError :=
  let (svcs, evs, res) := startLoop m.services
  match res with
  | none => ({ m with services := svcs }, evs, none)
  | some e =>
    let (svcs₂, evs₂, _) := stopAllServices svcs
    ({ m with services := svcs₂ }, evs ++ evs₂, some e)

/-- Model of `Manager.Stop`: take the registry lock and run `stopAllServices`.
The context argument is passed through to each `service.Stop`. -/
def Stop (m : Manager) (_c : Ctx) : Manager × List Event × Option MError :=
  let (svcs, evs, err) := stopAllServices m.services
  ({ m with services := svcs }, evs, err)

/-- Model of `Manager.StartService`: `notFound` on an unknown name,
`alreadyRunning` on a Running record, otherwise the start-probe
protocol on that record alone (no rollback of other services on
failure). -/
def StartService (m : Manager) (name : String) :
    Manager × List Event × Option MError :=
  match findRec m.services name with
  | none => (m, [], some (.notFound name))
  | some r =>
    if r.state = .running then (m, [], some (.alreadyRunning name))
    else
      let (r', evs, res) := startProbe r
      ({ m with services := replaceRec m.services name r' }, evs, res)

/-- Model of `Manager.StopService`: `notFound` on an unknown name, `notRunning`
on a Stopped record; otherwise `setState(StateStopping)`, cancel,
`service.Stop`.  When `Stop` errors the method marks the record Error
and returns at once — the `wg.Wait()` only happens on the success
path. -/
def StopService (m : Manager) (name : String) :
    Manager × List Event × Option MError :=
  match findRec m.services name with
  | none => (m, [], some (.notFound name))
  | some r =>
    if r.state = .stopped then (m, [], some (.notRunning name))
    else
      let (r₁, e₁) := setState r .stopping
      let r₂ := { r₁ with cancelled := true }
      let sc := Event.stopCall r₂.service.name
      match r₂.service.stopResult with
      | some e =>
        let (r₃, ev) := setState { r₂ with lastError := some e } .error
        ({ m with services := replaceRec m.services name r₃ },
         [e₁, sc, ev], some (.stopFailed name e))
      | none =>
        let (r₃, evs₃) := waitUnwind r₂
        ({ m with services := replaceRec m.services name r₃ },
         e₁ :: sc :: evs₃, none)

/-- Model of `Manager.IsRunning`. -/
def IsRunning (m : Manager) (name : String) : Bool :=
  match findRec m.services name with
  | none => false
  | some r => r.state = .running

/-- Model of `Manager.GetStatus`: per-record (name, state, last error)
snapshot, in registration order. -/
def GetStatus (m : Manager) : List ServiceInfo :=
  m.services.map (fun r =>
    { name := r.service.name, state := r.state, error := r.lastError })

/-- Model of `Manager.HealthCheck`: name ↦ (state == Running), as a list of
pairs in registration order. -/
def HealthCheck (m : Manager) : List (String × Bool) :=
  m.services.map (fun r => (r.service.name, r.state = .running))

/-- Go `o.cancel()`: cancel the root context; cancellation propagates to
every derived per-record context. -/
def cancelRoot (m : Manager) : Manager :=
  { m with rootCancelled := true,
           services := m.services.map (fun r => { r with cancelled := true }) }

/-- Model of `Manager.Shutdown`: cancel the root context, run `Stop`, then wait
on the aggregate `waitGroup` (a pure synchronization point: every
goroutine has already been awaited record by record). -/
def Shutdown (m : Manager) (c : Ctx) : Manager × List Event × Option MError :=
  let (m', evs, err) := Stop (cancelRoot m) c
  (m', .shutdownCall c :: evs, err)

/-- Model of `Manager.gracefulShutdown`: run `Shutdown` bounded by the
configured shutdown timeout, racing it against the timeout.
`timedOut` is the outcome of that race: when false the bounded
`Shutdown` completes first and its result is returned; when true the
timeout fires first and an unbounded `Shutdown` (background context)
is run instead, the abandoned bounded attempt contributing only its
invocation event. -/
def gracefulShutdown (m : Manager) (timedOut : Bool) :
    Manager × List Event × Option MError :=
  if timedOut then
    let (m', evs, err) := Shutdown m .background
    (m', .shutdownCall (.withTimeout m.shutdownTimeout) :: evs, err)
  else
    Shutdown m (.withTimeout m.shutdownTimeout)

/-- The external event `RunWithGracefulShutdown` observes after a
successful start: the caller's context was cancelled, a graceful
termination signal arrived, or a forced termination signal arrived. -/
inductive Trigger where
  | ctxCancelled
  | gracefulSignal
  | forcedSignal
deriving DecidableEq, Repr

/-- Model of `Manager.RunWithGracefulShutdown`: start everything (returning the
start error unchanged on failure), then react to the first external
event: caller-context cancellation runs `Shutdown` with the caller's
context, a graceful signal runs the timeout-bounded graceful shutdown,
a forced signal runs an unbounded `Shutdown` immediately. -/
def RunWithGracefulShutdown (m : Manager) (t : Trigger) (timedOut : Bool) :
    Manager × List Event × Option MError :=
  match Start m with
  | (m', evs, some e) => (m', evs, some e)
  | (m', evs, none) =>
    let (m'', evs', err) :=
      match t with
      | .ctxCancelled => Shutdown m' .caller
      | .gracefulSignal => gracefulShutdown m' timedOut
      | .forcedSignal => Shutdown m' .background
    (m'', evs ++ evs', err)

/-- Whether a still-running goroutine can return right now: a
`runThenExit` task returns on its own; a `runUntilCancel` task returns
once its context has been cancelled. -/
def canReturnNow (r : ServiceRec) : Bool :=
  match r.service.behavior with
  | .runThenExit _ => true
  | .runUntilCancel _ => r.cancelled
  | _ => false

/-- Asynchronous completion of the named record's goroutine, outside
any manager method: the goroutine returns and runs its state-writing
tail. -/
def taskCompletes (m : Manager) (name : String) : Manager × List Event :=
  match findRec m.services name with
  | none => (m, [])
  | some r =>
    if r.taskRunning && canReturnNow r then
      let (r', evs) := taskReturn r
      ({ m with services := replaceRec m.services name r' }, evs)
    else (m, [])

/-- A manager fresh out of `NewManager` before options are applied,
with the given shutdown timeout (milliseconds) and service sequence
(`NewManager`'s zero value for the latter is `SequenceNone`). -/
def mkManager (timeout : Nat) (seq : ServiceSequence) : Manager :=
  { services := [], shutdownTimeout := timeout, serviceSequence := seq,
    rootCancelled := false }

/-- Go `NewManager` with no options: 30s shutdown timeout. -/
def NewManager : Manager := mkManager 30000 .SequenceNone

/-- The `WithServiceSequence` option. -/
def WithServiceSequence (seq : ServiceSequence) (m : Manager) : Manager :=
  { m with serviceSequence := seq }

/-- The `WithShutdownTimeout` option. -/
def WithShutdownTimeout (timeout : Nat) (m : Manager) : Manager :=
  { m with shutdownTimeout := timeout }

/-- One invocation of a public manager operation, or one asynchronous
goroutine completion. -/
inductive Op where
  | register (svc : Service)
  | start
  | stop (c : Ctx)
  | startService (name : String)
  | stopService (name : String)
  | shutdown (c : Ctx)
  | run (t : Trigger) (timedOut : Bool)
  | taskDone (name : String)
deriving DecidableEq, Repr

/-- Apply one operation to the manager, yielding the new manager, the
emitted events and the returned error. -/
def applyOp (m : Manager) : Op → Manager × List Event × Option MError
  | .register svc =>
    let (m', err) := Register m svc
    (m', [], err)
  | .start => Start m
  | .stop c => Stop m c
  | .startService n => StartService m n
  | .stopService n => StopService m n
  | .shutdown c => Shutdown m c
  | .run t timedOut => RunWithGracefulShutdown m t timedOut
  | .taskDone n =>
    let (m', evs) := taskCompletes m n
    (m', evs, none)

/-- The managers reachable from a fresh manager by any sequence of
operations and asynchronous task completions. -/
inductive Reachable : Manager → Prop where
  | init (timeout : Nat) (seq : ServiceSequence) :
      Reachable (mkManager timeout seq)
  | step (m : Manager) (op : Op) : Reachable m → Reachable (applyOp m op).1

/-- The names of a record list, in order. -/
def recNames (svcs : List ServiceRec) : List String :=
  svcs.map (fun r => r.service.name)

/-- The goroutine launches recorded in an event list, in order. -/
def dispatchNames (evs : List Event) : List String :=
  evs.filterMap (fun e => match e with | .dispatch n => some n | _ => none)

/-- The `service.Stop` invocations recorded in an event list, in
order. -/
def stopCallNames (evs : List Event) : List String :=
  evs.filterMap (fun e => match e with | .stopCall n => some n | _ => none)

/-- The `Shutdown` invocations recorded in an event list, with their
contexts, in order. -/
def shutdownCalls (evs : List Event) : List Ctx :=
  evs.filterMap (fun e => match e with | .shutdownCall c => some c | _ => none)

/-- The state transitions recorded in an event list that actually
change the state (same-value rewrites are not moves of the state
machine). -/
def transEdges (evs : List Event) : List (ServiceState × ServiceState) :=
  evs.filterMap (fun e => match e with
    | .trans _ s₁ s₂ => if s₁ = s₂ then none else some (s₁, s₂)
    | _ => none)

/-- The edges of the §4.2 state machine as listed in the
specification. -/
def claimedEdge : ServiceState → ServiceState → Bool
  | .stopped, .starting => true
  | .starting, .error => true
  | .starting, .running => true
  | .running, .stopped => true
  | .running, .stopping => true
  | .starting, .stopping => true
  | .stopping, .stopped => true
  | .stopping, .error => true
  | .running, .error => true
  | _, _ => false

/-- The edges the code actually exhibits: the §4.2 edges plus the
extra edges taken on Error records (start and stop requests are not
guarded against them, and their late goroutines may still unwind), on
records stuck in Stopping, and around a task that returns cleanly
inside the probe window (Starting→Stopped by the task, then
Stopped→Running by the probe). -/
def exhibitedEdge (s₁ s₂ : ServiceState) : Bool :=
  claimedEdge s₁ s₂ ||
    (match s₁, s₂ with
     | .error, .starting => true
     | .stopping, .starting => true
     | .error, .stopping => true
     | .error, .stopped => true
     | .stopped, .running => true
     | .starting, .stopped => true
     | _, _ => false)

/-- Go-loop registration of a list of services one after the other,
collecting each `Register` result. -/
def registerAll (m : Manager) : List Service → Manager × List (Option MError)
  | [] => (m, [])
  | s :: rest =>
    let (m', err) := Register m s
    let (m'', errs) := registerAll m' rest
    (m'', err :: errs)

/-- Whether a record would be detected as failed by the start probe:
it is dispatched (not already Running) and its task fails within the
probe window. -/
def failsProbe (r : ServiceRec) : Bool :=
  !(r.state = .running) &&
    (match r.service.behavior with | .failFast _ => true | _ => false)

/-- The error captured in the record when the probe detects the
failure. -/
def probeErr (r : ServiceRec) : Option Err :=
  match r.service.behavior with | .failFast e => some e | _ => none

/-! ### Registration lemmas -/

theorem getStatus_names (m : Manager) :
    (GetStatus m).map ServiceInfo.name = recNames m.services := by
  simp [GetStatus, recNames, List.map_map]

theorem register_mem (m : Manager) (svc : Service)
    (h : svc.name ∈ recNames m.services) :
    Register m svc = (m, some (.duplicateName svc.name)) := by
  simp only [Register, recNames] at *
  simp [h]

theorem register_not_mem (m : Manager) (svc : Service)
    (h : svc.name ∉ recNames m.services) :
    (Register m svc).2 = none ∧
    recNames (Register m svc).1.services = recNames m.services ++ [svc.name] := by
  simp only [Register, recNames] at *
  simp [h]

theorem registerAll_ok : ∀ (svcs : List Service) (m : Manager),
    (recNames m.services ++ svcs.map Service.name).Nodup →
    (∀ e ∈ (registerAll m svcs).2, e = none) ∧
    recNames (registerAll m svcs).1.services
      = recNames m.services ++ svcs.map Service.name := by
  intro svcs
  induction svcs with
  | nil => intro m _; simp [registerAll]
  | cons s rest ih =>
    intro m hnd
    have hsplit : recNames m.services ++ (s :: rest).map Service.name
        = (recNames m.services ++ [s.name]) ++ rest.map Service.name := by
      simp
    have hnd' : ((recNames m.services ++ [s.name]) ++ rest.map Service.name).Nodup := by
      rw [← hsplit]; exact hnd
    have hmem : s.name ∉ recNames m.services := by
      have h₁ := (List.nodup_append.mp hnd).2.2
      intro hc
      exact h₁ hc (by simp)
    obtain ⟨hres, hnames⟩ := register_not_mem m s hmem
    have ihm := ih (Register m s).1 (by rw [hnames]; exact hnd')
    refine ⟨?_, ?_⟩
    · intro e he
      simp only [registerAll] at he
      rcases List.mem_cons.mp he with h | h
      · rw [h, hres]
      · exact ihm.1 e h
    · simp only [registerAll]
      rw [ihm.2, hnames]
      simp


/-! ### Stop lemmas -/

theorem stopOne_stopped (r : ServiceRec) (h : r.state = .stopped) :
    stopOne r = (r, [], none) := by
  simp [stopOne, h]

theorem stopLoopRev_all_stopped : ∀ l : List ServiceRec,
    (∀ r ∈ l, r.state = .stopped) → stopLoopRev l = (l, [], []) := by
  intro l
  induction l with
  | nil => intro _; rfl
  | cons r rest ih =>
    intro h
    have hr := h r (List.mem_cons_self r rest)
    simp [stopLoopRev, stopOne_stopped r hr,
      ih (fun x hx => h x (List.mem_cons_of_mem r hx))]

theorem stopAllServices_all_stopped (l : List ServiceRec)
    (h : ∀ r ∈ l, r.state = .stopped) : stopAllServices l = (l, [], none) := by
  have h' : ∀ r ∈ l.reverse, r.state = .stopped :=
    fun r hr => h r (List.mem_reverse.mp hr)
  simp [stopAllServices, stopLoopRev_all_stopped _ h']

theorem stopOne_service (r : ServiceRec) : (stopOne r).1.service = r.service := by
  by_cases hs : r.state = .stopped
  · rw [stopOne_stopped r hs]
  · simp only [stopOne, if_neg hs, waitUnwind, taskReturn, setState]
    rcases r.service.stopResult with _ | e <;>
      rcases hres : r.service.behavior.result with _ | e' <;>
      split_ifs <;> simp

theorem stopOne_not_running (r : ServiceRec) : (stopOne r).1.state ≠ .running := by
  by_cases hs : r.state = .stopped
  · rw [stopOne_stopped r hs]
    simp [hs]
  · simp only [stopOne, if_neg hs, waitUnwind, taskReturn, setState]
    rcases r.service.stopResult with _ | e <;>
      rcases hres : r.service.behavior.result with _ | e' <;>
      split_ifs <;> simp

theorem stopOne_err_not_stopped (r : ServiceRec) (hs : ¬ r.state = .stopped) :
    (stopOne r).2.2 = r.service.stopResult.map (fun e => (r.service.name, e)) := by
  simp only [stopOne, if_neg hs, waitUnwind, taskReturn, setState]
  rcases r.service.stopResult with _ | e <;>
    rcases hres : r.service.behavior.result with _ | e' <;>
    simp

theorem stopOne_stopCalls (r : ServiceRec) :
    stopCallNames (stopOne r).2.1 = if r.state = .stopped then [] else [r.service.name] := by
  by_cases hs : r.state = .stopped
  · rw [stopOne_stopped r hs]
    simp [hs, stopCallNames]
  · simp only [stopOne, if_neg hs, waitUnwind, taskReturn, setState]
    rcases r.service.stopResult with _ | e <;>
      rcases hres : r.service.behavior.result with _ | e' <;>
      split_ifs <;> simp [stopCallNames, hs]

theorem stopOne_no_dispatch (r : ServiceRec) :
    dispatchNames (stopOne r).2.1 = [] := by
  by_cases hs : r.state = .stopped
  · rw [stopOne_stopped r hs]
    simp [dispatchNames]
  · simp only [stopOne, if_neg hs, waitUnwind, taskReturn, setState]
    rcases r.service.stopResult with _ | e <;>
      rcases hres : r.service.behavior.result with _ | e' <;>
      split_ifs <;> simp [dispatchNames]

theorem stopOne_no_shutdown (r : ServiceRec) :
    shutdownCalls (stopOne r).2.1 = [] := by
  by_cases hs : r.state = .stopped
  · rw [stopOne_stopped r hs]
    simp [shutdownCalls]
  · simp only [stopOne, if_neg hs, waitUnwind, taskReturn, setState]
    rcases r.service.stopResult with _ | e <;>
      rcases hres : r.service.behavior.result with _ | e' <;>
      split_ifs <;> simp [shutdownCalls]

theorem stopOne_taskDone (r : ServiceRec) (hs : ¬ r.state = .stopped) :
    (stopOne r).1.taskRunning = false := by
  simp only [stopOne, if_neg hs, waitUnwind, taskReturn, setState]
  rcases r.service.stopResult with _ | e <;>
    rcases hres : r.service.behavior.result with _ | e' <;>
    split_ifs with ht <;> simp_all

theorem stopOne_cancelled (r : ServiceRec) (hs : ¬ r.state = .stopped) :
    (stopOne r).1.cancelled = true := by
  simp only [stopOne, if_neg hs, waitUnwind, taskReturn, setState]
  rcases r.service.stopResult with _ | e <;>
    rcases hres : r.service.behavior.result with _ | e' <;>
    split_ifs <;> simp

theorem stopOne_head (r : ServiceRec) (hs : ¬ r.state = .stopped) :
    ∃ rest, (stopOne r).2.1
      = .trans r.service.name r.state .stopping :: .stopCall r.service.name :: rest := by
  simp only [stopOne, if_neg hs, waitUnwind, taskReturn, setState]
  rcases r.service.stopResult with _ | e <;>
    rcases hres : r.service.behavior.result with _ | e' <;>
    split_ifs <;> exact ⟨_, rfl⟩

theorem stopOne_error_marked (r : ServiceRec) (e : Err)
    (hs : ¬ r.state = .stopped) (he : r.service.stopResult = some e) :
    Event.trans r.service.name .stopping .error ∈ (stopOne r).2.1 := by
  simp only [stopOne, if_neg hs, waitUnwind, taskReturn, setState, he]
  rcases hres : r.service.behavior.result with _ | e' <;>
    split_ifs <;> simp

theorem stopCallNames_append (a b : List Event) :
    stopCallNames (a ++ b) = stopCallNames a ++ stopCallNames b :=
  List.filterMap_append a b _

theorem dispatchNames_append (a b : List Event) :
    dispatchNames (a ++ b) = dispatchNames a ++ dispatchNames b :=
  List.filterMap_append a b _

theorem shutdownCalls_append (a b : List Event) :
    shutdownCalls (a ++ b) = shutdownCalls a ++ shutdownCalls b :=
  List.filterMap_append a b _

theorem transEdges_append (a b : List Event) :
    transEdges (a ++ b) = transEdges a ++ transEdges b :=
  List.filterMap_append a b _

/-- The per-service stop errors collected by `stopAllServices`, in
iteration (reverse registration) order. -/
def stopErrList (l : List ServiceRec) : List (String × Err) :=
  l.reverse.filterMap (fun r =>
    if r.state = .stopped then none
    else r.service.stopResult.map (fun e => (r.service.name, e)))

theorem stopLoopRev_spec : ∀ l : List ServiceRec,
    (stopLoopRev l).1 = l.map (fun r => (stopOne r).1) ∧
    stopCallNames (stopLoopRev l).2.1
      = recNames (l.filter (fun r => !(r.state = .stopped))) ∧
    (stopLoopRev l).2.2 = l.filterMap (fun r =>
      if r.state = .stopped then none
      else r.service.stopResult.map (fun e => (r.service.name, e))) ∧
    dispatchNames (stopLoopRev l).2.1 = [] ∧
    shutdownCalls (stopLoopRev l).2.1 = [] := by
  intro l
  induction l with
  | nil => simp [stopLoopRev, stopCallNames, dispatchNames, shutdownCalls, recNames]
  | cons r rest ih =>
    obtain ⟨ih1, ih2, ih3, ih4, ih5⟩ := ih
    refine ⟨?_, ?_, ?_, ?_, ?_⟩
    · simp [stopLoopRev, ih1]
    · by_cases hs : r.state = .stopped
      · simp [stopLoopRev, stopCallNames_append, stopOne_stopCalls, ih2, hs,
          List.filter_cons]
      · simp [stopLoopRev, stopCallNames_append, stopOne_stopCalls, ih2, hs,
          List.filter_cons, recNames]
    · by_cases hs : r.state = .stopped
      · simp [stopLoopRev, stopOne_stopped r hs, ih3, hs, List.filterMap_cons]
      · rcases he : r.service.stopResult with _ | e <;>
          simp [stopLoopRev, stopOne_err_not_stopped r hs, ih3, hs,
            List.filterMap_cons, he]
    · simp [stopLoopRev, dispatchNames_append, stopOne_no_dispatch, ih4]
    · simp [stopLoopRev, shutdownCalls_append, stopOne_no_shutdown, ih5]

theorem stopAllServices_spec (l : List ServiceRec) :
    (stopAllServices l).1 = l.map (fun r => (stopOne r).1) ∧
    stopCallNames (stopAllServices l).2.1
      = recNames (l.reverse.filter (fun r => !(r.state = .stopped))) ∧
    ((stopAllServices l).2.2 = if (stopErrList l).isEmpty then none
      else some (.stopErrors (stopErrList l))) ∧
    dispatchNames (stopAllServices l).2.1 = [] ∧
    shutdownCalls (stopAllServices l).2.1 = [] := by
  obtain ⟨h1, h2, h3, h4, h5⟩ := stopLoopRev_spec l.reverse
  refine ⟨?_, ?_, ?_, ?_, ?_⟩
  · simp only [stopAllServices]
    rw [h1, List.map_reverse, List.reverse_reverse]
  · simpa only [stopAllServices] using h2
  · simp only [stopAllServices]
    rw [h3]
    rfl
  · simpa only [stopAllServices] using h4
  · simpa only [stopAllServices] using h5

/-! ### C4 -/

/-- C4: the batch stop iterates records in reverse registration order,
skips records already Stopped, and for each remaining record moves it
to Stopping, cancels its scope, invokes its stop and awaits its
completion barrier; every non-Stopped record gets a stop attempt
regardless of earlier failures, and the individual stop failures are
collected into one aggregated error returned at the end. -/
theorem c4_stop_all (m : Manager) (c : Ctx) :
    (Stop m c).1.services = m.services.map (fun r => (stopOne r).1) ∧
    (∀ r ∈ m.services, r.state = .stopped → stopOne r = (r, [], none)) ∧
    (∀ r ∈ m.services, ¬ r.state = .stopped →
      (stopOne r).1.cancelled = true ∧
      (stopOne r).1.taskRunning = false ∧
      ∃ rest, (stopOne r).2.1
        = .trans r.service.name r.state .stopping
            :: .stopCall r.service.name :: rest) ∧
    stopCallNames (Stop m c).2.1
      = recNames (m.services.reverse.filter (fun r => !(r.state = .stopped))) ∧
    ((Stop m c).2.2 = if (stopErrList m.services).isEmpty then none
      else some (.stopErrors (stopErrList m.services))) := by
  obtain ⟨h1, h2, h3, _, _⟩ := stopAllServices_spec m.services
  refine ⟨by simpa [Stop] using h1,
    fun r _ hr => stopOne_stopped r hr,
    fun r _ hr => ⟨stopOne_cancelled r hr, stopOne_taskDone r hr, stopOne_head r hr⟩,
    by simpa [Stop] using h2,
    by simpa [Stop] using h3⟩

/-! ### Start lemmas -/

theorem startProbe_ok (r : ServiceRec) (hb : ∀ e, r.service.behavior ≠ .failFast e) :
    (startProbe r).2.2 = none ∧ (startProbe r).1.state = .running ∧
    (startProbe r).1.service = r.service ∧
    dispatchNames (startProbe r).2.1 = [r.service.name] ∧
    stopCallNames (startProbe r).2.1 = [] ∧
    shutdownCalls (startProbe r).2.1 = [] := by
  rcases hbe : r.service.behavior with e | _ | res | res
  · exact absurd hbe (hb e)
  all_goals
    simp [startProbe, setState, hbe, dispatchNames, stopCallNames, shutdownCalls]

theorem startProbe_fail (r : ServiceRec) (e : Err)
    (hb : r.service.behavior = .failFast e) :
    (startProbe r).2.2 = some (.startFailed r.service.name (some e)) ∧
    (startProbe r).1.state = .error ∧
    (startProbe r).1.service = r.service ∧
    dispatchNames (startProbe r).2.1 = [r.service.name] ∧
    stopCallNames (startProbe r).2.1 = [] ∧
    shutdownCalls (startProbe r).2.1 = [] := by
  simp [startProbe, setState, hb, dispatchNames, stopCallNames, shutdownCalls]

theorem failsProbe_false (r : ServiceRec) (h : failsProbe r = false) :
    r.state = .running ∨ ∀ e, r.service.behavior ≠ .failFast e := by
  by_cases hs : r.state = .running
  · exact Or.inl hs
  · refine Or.inr fun e he => ?_
    simp [failsProbe, hs, he] at h

theorem failsProbe_true (r : ServiceRec) (h : failsProbe r = true) :
    ¬ r.state = .running ∧
    ∃ e, r.service.behavior = .failFast e ∧ probeErr r = some e := by
  by_cases hs : r.state = .running
  · simp [failsProbe, hs] at h
  · refine ⟨hs, ?_⟩
    rcases hbe : r.service.behavior with e | _ | res | res <;>
      simp [failsProbe, hs, hbe, probeErr] at h ⊢

theorem startOne_ok (r : ServiceRec) (h : failsProbe r = false) :
    (startOne r).2.2 = none ∧ (startOne r).1.state = .running ∧
    (startOne r).1.service = r.service ∧
    dispatchNames (startOne r).2.1
      = (if r.state = .running then [] else [r.service.name]) ∧
    stopCallNames (startOne r).2.1 = [] ∧
    shutdownCalls (startOne r).2.1 = [] := by
  by_cases hs : r.state = .running
  · simp [startOne, hs, dispatchNames, stopCallNames, shutdownCalls]
  · rcases failsProbe_false r h with h' | h'
    · exact absurd h' hs
    · have hp := startProbe_ok r h'
      simp only [startOne, if_neg hs, if_neg hs]
      exact ⟨hp.1, hp.2.1, hp.2.2.1, hp.2.2.2.1, hp.2.2.2.2⟩

theorem startOne_fail (r : ServiceRec) (h : failsProbe r = true) :
    (startOne r).2.2 = some (.startFailed r.service.name (probeErr r)) ∧
    (startOne r).1.state = .error ∧
    (startOne r).1.service = r.service ∧
    dispatchNames (startOne r).2.1 = [r.service.name] ∧
    stopCallNames (startOne r).2.1 = [] ∧
    shutdownCalls (startOne r).2.1 = [] := by
  obtain ⟨hs, e, hbe, hpe⟩ := failsProbe_true r h
  have hp := startProbe_fail r e hbe
  simp only [startOne, if_neg hs]
  rw [hpe]
  exact hp

theorem startOne_service (r : ServiceRec) : (startOne r).1.service = r.service := by
  by_cases hf : failsProbe r
  · exact (startOne_fail r hf).2.2.1
  · exact (startOne_ok r (by simpa using hf)).2.2.1

theorem startLoop_names : ∀ l : List ServiceRec,
    recNames (startLoop l).1 = recNames l := by
  intro l
  induction l with
  | nil => rfl
  | cons r rest ih =>
    rcases hres : (startOne r).2.2 with _ | e
    · simp only [startLoop, hres, recNames, List.map_cons, startOne_service r]
      simpa [recNames] using ih
    · simp [startLoop, hres, recNames, startOne_service r]

theorem startLoop_ok : ∀ l : List ServiceRec, (∀ r ∈ l, failsProbe r = false) →
    (startLoop l).2.2 = none ∧
    (∀ r' ∈ (startLoop l).1, r'.state = .running) ∧
    dispatchNames (startLoop l).2.1
      = recNames (l.filter (fun r => !(r.state = .running))) ∧
    stopCallNames (startLoop l).2.1 = [] ∧
    shutdownCalls (startLoop l).2.1 = [] := by
  intro l
  induction l with
  | nil =>
    intro _
    simp [startLoop, dispatchNames, stopCallNames, shutdownCalls, recNames]
  | cons r rest ih =>
    intro h
    have hr := h r (List.mem_cons_self r rest)
    have hrest := ih (fun x hx => h x (List.mem_cons_of_mem r hx))
    obtain ⟨h1, h2, h3, h4, h5, h6⟩ := startOne_ok r hr
    obtain ⟨g1, g2, g3, g4, g5⟩ := hrest
    refine ⟨?_, ?_, ?_, ?_, ?_⟩
    · simp [startLoop, h1, g1]
    · intro r' hr'
      simp only [startLoop, h1] at hr'
      rcases List.mem_cons.mp hr' with h' | h'
      · rw [h']
        exact h2
      · exact g2 r' h'
    · by_cases hs : r.state = .running <;>
        simp [startLoop, h1, dispatchNames_append, h4, g3, hs,
          List.filter_cons, recNames]
    · simp [startLoop, h1, stopCallNames_append, h5, g4]
    · simp [startLoop, h1, shutdownCalls_append, h6, g5]

theorem startLoop_fail : ∀ (l₁ : List ServiceRec) (r : ServiceRec)
    (l₂ : List ServiceRec), (∀ x ∈ l₁, failsProbe x = false) →
    failsProbe r = true →
    (startLoop (l₁ ++ r :: l₂)).2.2
      = some (.startFailed r.service.name (probeErr r)) ∧
    (startLoop (l₁ ++ r :: l₂)).1
      = l₁.map (fun x => (startOne x).1) ++ (startOne r).1 :: l₂ ∧
    dispatchNames (startLoop (l₁ ++ r :: l₂)).2.1
      = recNames (l₁.filter (fun x => !(x.state = .running))) ++ [r.service.name] ∧
    stopCallNames (startLoop (l₁ ++ r :: l₂)).2.1 = [] ∧
    shutdownCalls (startLoop (l₁ ++ r :: l₂)).2.1 = [] := by
  intro l₁
  induction l₁ with
  | nil =>
    intro r l₂ _ hf
    obtain ⟨h1, _, _, h4, h5, h6⟩ := startOne_fail r hf
    refine ⟨?_, ?_, ?_, ?_, ?_⟩ <;>
      simp [startLoop, h1, h4, h5, h6, recNames]
  | cons x l₁ ih =>
    intro r l₂ hok hf
    have hx := hok x (List.mem_cons_self x l₁)
    have ihr := ih r l₂ (fun y hy => hok y (List.mem_cons_of_mem x hy)) hf
    obtain ⟨h1, h2, h3, h4, h5, h6⟩ := startOne_ok x hx
    obtain ⟨g1, g2, g3, g4, g5⟩ := ihr
    refine ⟨?_, ?_, ?_, ?_, ?_⟩
    · simp [startLoop, h1, g1]
    · simp [startLoop, h1, g2]
    · by_cases hs : x.state = .running <;>
        simp [startLoop, h1, dispatchNames_append, h4, g3, hs,
          List.filter_cons, recNames]
    · simp [startLoop, h1, stopCallNames_append, h5, g4]
    · simp [startLoop, h1, shutdownCalls_append, h6, g5]

theorem startLoop_err_none_iff : ∀ l : List ServiceRec,
    (startLoop l).2.2 = none ↔ ∀ r ∈ l, failsProbe r = false := by
  intro l
  induction l with
  | nil => simp [startLoop]
  | cons r rest ih =>
    by_cases hf : failsProbe r
    · have h1 := (startOne_fail r hf).1
      simp [startLoop, h1, hf]
    · have h1 := (startOne_ok r (by simpa using hf)).1
      simp [startLoop, h1, ih, hf]

theorem start_eq_ok (m : Manager) (h : (startLoop m.services).2.2 = none) :
    Start m = ({ m with services := (startLoop m.services).1 },
      (startLoop m.services).2.1, none) := by
  simp [Start, h]

theorem start_eq_fail (m : Manager) (e : MError)
    (h : (startLoop m.services).2.2 = some e) :
    Start m
      = ({ m with services := (stopAllServices (startLoop m.services).1).1 },
         (startLoop m.services).2.1
           ++ (stopAllServices (startLoop m.services).1).2.1, some e) := by
  simp [Start, h]

theorem stopAll_not_running (l : List ServiceRec) :
    ∀ x ∈ (stopAllServices l).1, x.state ≠ .running := by
  intro x hx
  rw [(stopAllServices_spec l).1] at hx
  obtain ⟨r, _, rfl⟩ := List.mem_map.mp hx
  exact stopOne_not_running r

theorem recNames_reverse (l : List ServiceRec) :
    recNames l.reverse = (recNames l).reverse := by
  simp [recNames, List.map_reverse]

/-! ### C1 -/

/-- C1: the batch start iterates records in registration order
(dispatching exactly the non-Running ones, in order), skips records
already Running, and succeeds exactly when no dispatched record fails
inside its probe window, in which case every record ends Running; when
the first failing record is reached the loop aborts, the start error
names that record and wraps its captured error, the whole partial
registry is rolled back through the batch stop (stop calls in reverse
registration order over the non-Stopped records), and afterwards no
record is Running. -/
theorem c1_start_all_or_nothing (m : Manager) :
    ((Start m).2.2 = none ↔ ∀ r ∈ m.services, failsProbe r = false) ∧
    ((Start m).2.2 = none →
      (∀ r ∈ (Start m).1.services, r.state = .running) ∧
      dispatchNames (Start m).2.1
        = recNames (m.services.filter (fun r => !(r.state = .running))) ∧
      stopCallNames (Start m).2.1 = []) ∧
    (∀ (l₁ : List ServiceRec) (r : ServiceRec) (l₂ : List ServiceRec),
      m.services = l₁ ++ r :: l₂ → (∀ x ∈ l₁, failsProbe x = false) →
      failsProbe r = true →
      (Start m).2.2 = some (.startFailed r.service.name (probeErr r)) ∧
      (∀ x ∈ (Start m).1.services, x.state ≠ .running) ∧
      dispatchNames (Start m).2.1
        = recNames (l₁.filter (fun x => !(x.state = .running)))
            ++ [r.service.name] ∧
      stopCallNames (Start m).2.1
        = recNames ((l₁.map (fun x => (startOne x).1)
            ++ (startOne r).1 :: l₂).reverse.filter
              (fun x => !(x.state = .stopped))) ∧
      (stopCallNames (Start m).2.1).Sublist (recNames m.services).reverse) := by
  have hse : (Start m).2.2 = (startLoop m.services).2.2 := by
    rcases hres : (startLoop m.services).2.2 with _ | e
    · simp [start_eq_ok m hres]
    · simp [start_eq_fail m e hres]
  refine ⟨?_, ?_, ?_⟩
  · rw [hse]
    exact startLoop_err_none_iff m.services
  · intro h
    rw [hse] at h
    obtain ⟨g1, g2, g3, g4, g5⟩ :=
      startLoop_ok m.services ((startLoop_err_none_iff m.services).mp h)
    rw [start_eq_ok m h]
    exact ⟨g2, g3, g4⟩
  · intro l₁ r l₂ hsplit hok hf
    have hfail := startLoop_fail l₁ r l₂ hok hf
    have herr : (startLoop m.services).2.2
        = some (.startFailed r.service.name (probeErr r)) := by
      rw [hsplit]
      exact hfail.1
    have hL : (startLoop m.services).1
        = l₁.map (fun x => (startOne x).1) ++ (startOne r).1 :: l₂ := by
      rw [hsplit]
      exact hfail.2.1
    have hdisp : dispatchNames (startLoop m.services).2.1
        = recNames (l₁.filter (fun x => !(x.state = .running)))
            ++ [r.service.name] := by
      rw [hsplit]
      exact hfail.2.2.1
    have hsc : stopCallNames (startLoop m.services).2.1 = [] := by
      rw [hsplit]
      exact hfail.2.2.2.1
    obtain ⟨s1, s2, s3, s4, s5⟩ := stopAllServices_spec (startLoop m.services).1
    rw [start_eq_fail m _ herr]
    refine ⟨rfl, ?_, ?_, ?_, ?_⟩
    · intro x hx
      exact stopAll_not_running _ x hx
    · rw [dispatchNames_append, hdisp, s4, List.append_nil]
    · rw [stopCallNames_append, hsc, List.nil_append, s2, hL]
    · rw [stopCallNames_append, hsc, List.nil_append, s2]
      have hsub : (((startLoop m.services).1.reverse.filter
          (fun x => !(x.state = .stopped))).map
            (fun x => x.service.name)).Sublist
          ((startLoop m.services).1.reverse.map (fun x => x.service.name)) :=
        (List.filter_sublist _).map _
      have hrw : (startLoop m.services).1.reverse.map (fun x => x.service.name)
          = (recNames m.services).reverse := by
        rw [← startLoop_names m.services]
        simp [recNames, List.map_reverse]
      rw [hrw] at hsub
      simpa [recNames] using hsub

theorem startLoop_dispatch_sublist : ∀ l : List ServiceRec,
    (dispatchNames (startLoop l).2.1).Sublist (recNames l) := by
  intro l
  induction l with
  | nil => simp [startLoop, dispatchNames, recNames]
  | cons r rest ih =>
    by_cases hf : failsProbe r
    · have hfl := startOne_fail r hf
      simp only [startLoop, hfl.1]
      rw [hfl.2.2.2.1]
      simp only [recNames, List.map_cons]
      exact (List.nil_sublist _).cons₂ _
    · have hok := startOne_ok r (by simpa using hf)
      simp only [startLoop, hok.1, dispatchNames_append]
      rw [hok.2.2.2.1]
      by_cases hs : r.state = .running
      · simp only [recNames, List.map_cons, if_pos hs, List.nil_append]
        exact ih.cons _
      · simp only [recNames, List.map_cons, if_neg hs, List.cons_append,
          List.nil_append]
        exact ih.cons₂ _

theorem start_dispatch_eq (m : Manager) :
    dispatchNames (Start m).2.1 = dispatchNames (startLoop m.services).2.1 := by
  rcases hres : (startLoop m.services).2.2 with _ | e
  · rw [start_eq_ok m hres]
  · rw [start_eq_fail m e hres, dispatchNames_append,
      (stopAllServices_spec _).2.2.2.1, List.append_nil]

/-! ### C8 -/

/-- C8: for every value of the service-sequence setting the batch
start and stop behave identically — the record list, events and error
of both operations do not depend on it — and the dispatch order is
always (a prefix of) registration order while the stop calls always
follow reverse registration order: the start and stop logic never
consults the setting. -/
theorem c8_sequence_unused (m : Manager) (s : ServiceSequence) (c : Ctx) :
    (Start (WithServiceSequence s m)).1.services = (Start m).1.services ∧
    (Start (WithServiceSequence s m)).2 = (Start m).2 ∧
    (Stop (WithServiceSequence s m) c).1.services = (Stop m c).1.services ∧
    (Stop (WithServiceSequence s m) c).2 = (Stop m c).2 ∧
    (dispatchNames (Start m).2.1).Sublist (recNames m.services) ∧
    stopCallNames (Stop m c).2.1
      = recNames (m.services.reverse.filter (fun r => !(r.state = .stopped))) ∧
    (stopCallNames (Stop m c).2.1).Sublist (recNames m.services).reverse := by
  have hsvc : (WithServiceSequence s m).services = m.services := rfl
  refine ⟨?_, ?_, rfl, rfl, ?_, ?_, ?_⟩
  · rcases hres : (startLoop m.services).2.2 with _ | e
    · rw [start_eq_ok m hres, start_eq_ok (WithServiceSequence s m) (by rw [hsvc]; exact hres)]
      rfl
    · rw [start_eq_fail m e hres,
        start_eq_fail (WithServiceSequence s m) e (by rw [hsvc]; exact hres)]
      rfl
  · rcases hres : (startLoop m.services).2.2 with _ | e
    · rw [start_eq_ok m hres, start_eq_ok (WithServiceSequence s m) (by rw [hsvc]; exact hres)]
      rfl
    · rw [start_eq_fail m e hres,
        start_eq_fail (WithServiceSequence s m) e (by rw [hsvc]; exact hres)]
      rfl
  · rw [start_dispatch_eq]
    exact startLoop_dispatch_sublist m.services
  · simpa [Stop] using (stopAllServices_spec m.services).2.1
  · have hsc : stopCallNames (Stop m c).2.1
        = recNames (m.services.reverse.filter (fun r => !(r.state = .stopped))) := by
      simpa [Stop] using (stopAllServices_spec m.services).2.1
    rw [hsc]
    have hsub : ((m.services.reverse.filter
        (fun x => !(x.state = .stopped))).map
          (fun x => x.service.name)).Sublist
        (m.services.reverse.map (fun x => x.service.name)) :=
      (List.filter_sublist _).map _
    have hrw : m.services.reverse.map (fun x => x.service.name)
        = (recNames m.services).reverse := by
      simp [recNames, List.map_reverse]
    rw [hrw] at hsub
    simpa [recNames] using hsub

/-! ### C9 -/

theorem startOne_no_shutdown (r : ServiceRec) :
    shutdownCalls (startOne r).2.1 = [] := by
  by_cases hf : failsProbe r
  · exact (startOne_fail r hf).2.2.2.2.2
  · exact (startOne_ok r (by simpa using hf)).2.2.2.2.2

theorem startLoop_no_shutdown : ∀ l : List ServiceRec,
    shutdownCalls (startLoop l).2.1 = [] := by
  intro l
  induction l with
  | nil => simp [startLoop, shutdownCalls]
  | cons r rest ih =>
    rcases hres : (startOne r).2.2 with _ | e <;>
      simp [startLoop, hres, shutdownCalls_append, startOne_no_shutdown, ih]

theorem start_no_shutdown (m : Manager) :
    shutdownCalls (Start m).2.1 = [] := by
  rcases hres : (startLoop m.services).2.2 with _ | e
  · rw [start_eq_ok m hres]
    exact startLoop_no_shutdown m.services
  · rw [start_eq_fail m e hres]
    simp [shutdownCalls_append, startLoop_no_shutdown,
      (stopAllServices_spec (startLoop m.services).1).2.2.2.2]

theorem shutdownCalls_cons (c : Ctx) (l : List Event) :
    shutdownCalls (Event.shutdownCall c :: l) = c :: shutdownCalls l := by
  simp [shutdownCalls]

theorem shutdownCalls_shutdown (m : Manager) (c : Ctx) :
    shutdownCalls (Shutdown m c).2.1 = [c] := by
  have h := (stopAllServices_spec (cancelRoot m).services).2.2.2.2
  simp only [Shutdown, Stop]
  simp only [shutdownCalls, List.filterMap_cons] at h ⊢
  simp [h]

theorem start_timeout (m : Manager) :
    (Start m).1.shutdownTimeout = m.shutdownTimeout := by
  rcases hres : (startLoop m.services).2.2 with _ | e
  · rw [start_eq_ok m hres]
  · rw [start_eq_fail m e hres]

/-- C9: after a successful start, a graceful signal whose bounded
shutdown finishes inside the shutdown timeout runs exactly one
`Shutdown` bounded by the configured timeout and returns its result; a
graceful signal whose bounded shutdown exceeds the timeout escalates
to a second, unbounded (background-context) `Shutdown` whose result is
returned; a forced signal runs a single unbounded `Shutdown`
immediately, never invoking the timeout-bounded one.  The outcome of
the race between the bounded shutdown and the timer is the `timedOut`
input; each call is a total function, so every path returns. -/
theorem c9_graceful_shutdown (m : Manager) (h : (Start m).2.2 = none) :
    (RunWithGracefulShutdown m .gracefulSignal false
      = ((Shutdown (Start m).1 (.withTimeout m.shutdownTimeout)).1,
         (Start m).2.1
           ++ (Shutdown (Start m).1 (.withTimeout m.shutdownTimeout)).2.1,
         (Shutdown (Start m).1 (.withTimeout m.shutdownTimeout)).2.2)) ∧
    shutdownCalls (RunWithGracefulShutdown m .gracefulSignal false).2.1
      = [.withTimeout m.shutdownTimeout] ∧
    ((RunWithGracefulShutdown m .gracefulSignal true).2.2
        = (Shutdown (Start m).1 .background).2.2 ∧
      shutdownCalls (RunWithGracefulShutdown m .gracefulSignal true).2.1
        = [.withTimeout m.shutdownTimeout, .background]) ∧
    (∀ timedOut,
      RunWithGracefulShutdown m .forcedSignal timedOut
        = ((Shutdown (Start m).1 .background).1,
           (Start m).2.1 ++ (Shutdown (Start m).1 .background).2.1,
           (Shutdown (Start m).1 .background).2.2) ∧
      shutdownCalls (RunWithGracefulShutdown m .forcedSignal timedOut).2.1
        = [.background]) := by
  have ht := start_timeout m
  have hns := start_no_shutdown m
  rcases hS : Start m with ⟨m', evs, res⟩
  rw [hS] at h ht hns
  simp only at h ht hns
  subst h
  have ht' : m'.shutdownTimeout = m.shutdownTimeout := ht
  refine ⟨?_, ?_, ⟨?_, ?_⟩, ?_⟩
  · simp [RunWithGracefulShutdown, hS, gracefulShutdown, ht']
  · simp [RunWithGracefulShutdown, hS, gracefulShutdown, ht', shutdownCalls_append,
      hns, shutdownCalls_shutdown]
  · simp [RunWithGracefulShutdown, hS, gracefulShutdown]
  · have hev : (RunWithGracefulShutdown m .gracefulSignal true).2.1
        = evs ++ (Event.shutdownCall (.withTimeout m'.shutdownTimeout)
            :: (Shutdown m' .background).2.1) := by
      simp [RunWithGracefulShutdown, hS, gracefulShutdown]
    rw [hev, shutdownCalls_append, hns, List.nil_append, shutdownCalls_cons,
      shutdownCalls_shutdown, ht']
  · intro timedOut
    constructor
    · simp [RunWithGracefulShutdown, hS]
    · simp [RunWithGracefulShutdown, hS, shutdownCalls_append, hns,
        shutdownCalls_shutdown]


/-! ### Record invariant preserved by every operation -/

/-- Invariant of a record between operations: it is never left in
Starting; a still-running goroutine implies the record reads Running,
Stopping or Error (the last one via the early-return path of
`StopService`); an Error state always carries a last error. -/
def RecInv (r : ServiceRec) : Prop :=
  ¬ r.state = .starting ∧
  (r.taskRunning = true →
    r.state = .running ∨ r.state = .stopping ∨ r.state = .error) ∧
  (r.state = .error → ¬ r.lastError = none)

/-- Invariant of a manager: every record satisfies `RecInv`. -/
def InvM (m : Manager) : Prop := ∀ r ∈ m.services, RecInv r

theorem recInv_startProbe (r : ServiceRec) : RecInv (startProbe r).1 := by
  rcases hbe : r.service.behavior with e | _ | res | res <;>
    simp [startProbe, setState, hbe, RecInv]

theorem recInv_startOne (r : ServiceRec) (h : RecInv r) :
    RecInv (startOne r).1 := by
  by_cases hs : r.state = .running
  · simpa [startOne, hs] using h
  · simpa [startOne, hs] using recInv_startProbe r

theorem recInv_taskReturn (r : ServiceRec) : RecInv (taskReturn r).1 := by
  rcases hres : r.service.behavior.result with _ | e <;>
    simp [taskReturn, setState, hres, RecInv]

theorem recInv_stopOne (r : ServiceRec) (h : RecInv r) :
    RecInv (stopOne r).1 := by
  by_cases hs : r.state = .stopped
  · rw [stopOne_stopped r hs]
    exact h
  · simp only [stopOne, if_neg hs, waitUnwind, taskReturn, setState]
    rcases hsr : r.service.stopResult with _ | e <;>
      rcases hres : r.service.behavior.result with _ | e' <;>
      split_ifs with htr <;>
      simp_all [RecInv]

theorem mem_replaceRec : ∀ (l : List ServiceRec) (n : String)
    (r' x : ServiceRec), x ∈ replaceRec l n r' → x ∈ l ∨ x = r' := by
  intro l
  induction l with
  | nil => intro n r' x hx; simp [replaceRec] at hx
  | cons y rest ih =>
    intro n r' x hx
    simp only [replaceRec] at hx
    split_ifs at hx with hy
    · rcases List.mem_cons.mp hx with h | h
      · exact Or.inr h
      · exact Or.inl (List.mem_cons_of_mem y h)
    · rcases List.mem_cons.mp hx with h | h
      · exact Or.inl (h ▸ List.mem_cons_self y rest)
      · rcases ih n r' x h with h' | h'
        · exact Or.inl (List.mem_cons_of_mem y h')
        · exact Or.inr h'

theorem invM_replace (m : Manager) (n : String) (r' : ServiceRec)
    (h : InvM m) (h' : RecInv r') :
    ∀ x ∈ replaceRec m.services n r', RecInv x := by
  intro x hx
  rcases mem_replaceRec m.services n r' x hx with hm | rfl
  · exact h x hm
  · exact h'

theorem invM_register (m : Manager) (svc : Service) (h : InvM m) :
    InvM (Register m svc).1 := by
  simp only [Register]
  split_ifs with hd
  · exact h
  · intro r hr
    simp only [List.mem_append, List.mem_singleton] at hr
    rcases hr with hr | rfl
    · exact h r hr
    · simp [RecInv]

theorem invM_startLoop : ∀ l : List ServiceRec, (∀ r ∈ l, RecInv r) →
    ∀ r ∈ (startLoop l).1, RecInv r := by
  intro l
  induction l with
  | nil => intro _ r hr; simp [startLoop] at hr
  | cons x rest ih =>
    intro h r hr
    have hx := h x (List.mem_cons_self x rest)
    rcases hres : (startOne x).2.2 with _ | e <;>
      simp only [startLoop, hres] at hr <;>
      rcases List.mem_cons.mp hr with h' | h'
    · exact h' ▸ recInv_startOne x hx
    · exact ih (fun y hy => h y (List.mem_cons_of_mem x hy)) r h'
    · exact h' ▸ recInv_startOne x hx
    · exact h r (List.mem_cons_of_mem x h')

theorem invM_stopAll (l : List ServiceRec) (h : ∀ r ∈ l, RecInv r) :
    ∀ r ∈ (stopAllServices l).1, RecInv r := by
  intro r hr
  rw [(stopAllServices_spec l).1] at hr
  obtain ⟨x, hx, rfl⟩ := List.mem_map.mp hr
  exact recInv_stopOne x (h x hx)

theorem invM_start (m : Manager) (h : InvM m) : InvM (Start m).1 := by
  rcases hres : (startLoop m.services).2.2 with _ | e
  · rw [start_eq_ok m hres]
    exact invM_startLoop m.services h
  · rw [start_eq_fail m e hres]
    exact invM_stopAll _ (invM_startLoop m.services h)

theorem recInv_cancel (r : ServiceRec) (h : RecInv r) :
    RecInv { r with cancelled := true } := by
  simpa [RecInv] using h

theorem invM_cancelRoot (m : Manager) (h : InvM m) : InvM (cancelRoot m) := by
  intro r hr
  simp only [cancelRoot, List.mem_map] at hr
  obtain ⟨x, hx, rfl⟩ := hr
  exact recInv_cancel x (h x hx)

theorem invM_stop (m : Manager) (c : Ctx) (h : InvM m) : InvM (Stop m c).1 := by
  intro r hr
  simp only [Stop] at hr
  exact invM_stopAll m.services h r hr

theorem invM_shutdown (m : Manager) (c : Ctx) (h : InvM m) :
    InvM (Shutdown m c).1 := by
  intro r hr
  simp only [Shutdown] at hr
  exact invM_stop (cancelRoot m) c (invM_cancelRoot m h) r hr

theorem invM_startService (m : Manager) (name : String) (h : InvM m) :
    InvM (StartService m name).1 := by
  rcases hf : findRec m.services name with _ | r
  · simpa [StartService, hf] using h
  · by_cases hr : r.state = .running
    · simpa [StartService, hf, hr] using h
    · simp only [StartService, hf, if_neg hr]
      exact invM_replace m name _ h (recInv_startProbe r)

theorem invM_stopService (m : Manager) (name : String) (h : InvM m) :
    InvM (StopService m name).1 := by
  rcases hf : findRec m.services name with _ | r
  · simpa [StopService, hf] using h
  · by_cases hr : r.state = .stopped
    · simpa [StopService, hf, hr] using h
    · rcases hsr : r.service.stopResult with _ | e
      · simp only [StopService, hf, if_neg hr, hsr, setState, waitUnwind]
        split_ifs with htr
        · exact invM_replace m name _ h (recInv_taskReturn _)
        · refine invM_replace m name _ h ?_
          simp [RecInv, htr]
      · simp only [StopService, hf, if_neg hr, hsr, setState]
        refine invM_replace m name _ h ?_
        simp [RecInv]

theorem invM_taskCompletes (m : Manager) (name : String) (h : InvM m) :
    InvM (taskCompletes m name).1 := by
  rcases hf : findRec m.services name with _ | r
  · simpa [taskCompletes, hf] using h
  · by_cases hc : r.taskRunning && canReturnNow r
    · simp only [taskCompletes, hf, hc, if_pos rfl]
      exact invM_replace m name _ h (recInv_taskReturn r)
    · simpa [taskCompletes, hf, hc] using h

theorem invM_run (m : Manager) (t : Trigger) (timedOut : Bool) (h : InvM m) :
    InvM (RunWithGracefulShutdown m t timedOut).1 := by
  have hstart := invM_start m h
  rcases hS : Start m with ⟨m', evs, res⟩
  rw [hS] at hstart
  rcases res with _ | e
  · rcases t with _ | _ | _
    · simpa [RunWithGracefulShutdown, hS] using invM_shutdown m' .caller hstart
    · rcases timedOut with _ | _
      · simpa [RunWithGracefulShutdown, hS, gracefulShutdown] using
          invM_shutdown m' (.withTimeout m'.shutdownTimeout) hstart
      · simpa [RunWithGracefulShutdown, hS, gracefulShutdown] using
          invM_shutdown m' .background hstart
    · simpa [RunWithGracefulShutdown, hS] using
        invM_shutdown m' .background hstart
  · simpa [RunWithGracefulShutdown, hS] using hstart

theorem inv_applyOp (m : Manager) (op : Op) (h : InvM m) :
    InvM (applyOp m op).1 := by
  rcases op with svc | _ | c | n | n | c | ⟨t, timedOut⟩ | n
  · simpa [applyOp] using invM_register m svc h
  · simpa [applyOp] using invM_start m h
  · simpa [applyOp] using invM_stop m c h
  · simpa [applyOp] using invM_startService m n h
  · simpa [applyOp] using invM_stopService m n h
  · simpa [applyOp] using invM_shutdown m c h
  · simpa [applyOp] using invM_run m t timedOut h
  · simpa [applyOp] using invM_taskCompletes m n h

theorem reachable_inv (m : Manager) (h : Reachable m) : InvM m := by
  induction h with
  | init timeout seq => intro r hr; simp [mkManager] at hr
  | step m' op _ ih => exact inv_applyOp m' op ih


/-! ### C2: transition edges -/

theorem transEdges_shutdownCall (c : Ctx) (l : List Event) :
    transEdges (Event.shutdownCall c :: l) = transEdges l := by
  simp [transEdges]

theorem edges_startProbe (r : ServiceRec) (hs : ¬ r.state = .starting)
    (hr : ¬ r.state = .running) :
    ∀ p ∈ transEdges (startProbe r).2.1, exhibitedEdge p.1 p.2 = true := by
  cases hst : r.state
  case starting => exact absurd hst hs
  case running => exact absurd hst hr
  all_goals
    rcases hbe : r.service.behavior with e | _ | res | res <;>
      simp [startProbe, setState, transEdges, hst, hbe] <;> decide

theorem edges_startOne (r : ServiceRec) (h : RecInv r) :
    ∀ p ∈ transEdges (startOne r).2.1, exhibitedEdge p.1 p.2 = true := by
  by_cases hr : r.state = .running
  · intro p hp
    simp [startOne, hr, transEdges] at hp
  · simp only [startOne, if_neg hr]
    exact edges_startProbe r h.1 hr

theorem edges_startLoop : ∀ l : List ServiceRec, (∀ r ∈ l, RecInv r) →
    ∀ p ∈ transEdges (startLoop l).2.1, exhibitedEdge p.1 p.2 = true := by
  intro l
  induction l with
  | nil => intro _ p hp; simp [startLoop, transEdges] at hp
  | cons r rest ih =>
    intro h p hp
    rcases hres : (startOne r).2.2 with _ | e <;>
      simp only [startLoop, hres, transEdges_append, List.mem_append] at hp
    · rcases hp with hp | hp
      · exact edges_startOne r (h r (List.mem_cons_self r rest)) p hp
      · exact ih (fun y hy => h y (List.mem_cons_of_mem r hy)) p hp
    · exact edges_startOne r (h r (List.mem_cons_self r rest)) p hp

theorem edges_stopOne (r : ServiceRec) (h : RecInv r) :
    ∀ p ∈ transEdges (stopOne r).2.1, exhibitedEdge p.1 p.2 = true := by
  by_cases hstp : r.state = .stopped
  · rw [stopOne_stopped r hstp]
    intro p hp
    simp [transEdges] at hp
  · cases hst : r.state
    all_goals try exact absurd hst h.1
    all_goals try exact absurd hst hstp
    all_goals
      by_cases htr : r.taskRunning <;>
        rcases hsr : r.service.stopResult with _ | e <;>
        rcases hres : r.service.behavior.result with _ | e' <;>
        simp [stopOne, waitUnwind, taskReturn, setState, hst, hsr, hres, htr,
          transEdges] <;> decide

theorem edges_stopLoopRev : ∀ l : List ServiceRec, (∀ r ∈ l, RecInv r) →
    ∀ p ∈ transEdges (stopLoopRev l).2.1, exhibitedEdge p.1 p.2 = true := by
  intro l
  induction l with
  | nil => intro _ p hp; simp [stopLoopRev, transEdges] at hp
  | cons r rest ih =>
    intro h p hp
    simp only [stopLoopRev, transEdges_append, List.mem_append] at hp
    rcases hp with hp | hp
    · exact edges_stopOne r (h r (List.mem_cons_self r rest)) p hp
    · exact ih (fun y hy => h y (List.mem_cons_of_mem r hy)) p hp

theorem edges_stopAll (l : List ServiceRec) (h : ∀ r ∈ l, RecInv r) :
    ∀ p ∈ transEdges (stopAllServices l).2.1, exhibitedEdge p.1 p.2 = true := by
  intro p hp
  have hev : (stopAllServices l).2.1 = (stopLoopRev l.reverse).2.1 := rfl
  rw [hev] at hp
  exact edges_stopLoopRev l.reverse
    (fun r hr => h r (List.mem_reverse.mp hr)) p hp

theorem edges_start (m : Manager) (h : InvM m) :
    ∀ p ∈ transEdges (Start m).2.1, exhibitedEdge p.1 p.2 = true := by
  rcases hres : (startLoop m.services).2.2 with _ | e
  · rw [start_eq_ok m hres]
    exact edges_startLoop m.services h
  · rw [start_eq_fail m e hres]
    intro p hp
    simp only [transEdges_append, List.mem_append] at hp
    rcases hp with hp | hp
    · exact edges_startLoop m.services h p hp
    · exact edges_stopAll _ (invM_startLoop m.services h) p hp

theorem edges_stop (m : Manager) (c : Ctx) (h : InvM m) :
    ∀ p ∈ transEdges (Stop m c).2.1, exhibitedEdge p.1 p.2 = true := by
  intro p hp
  have hev : (Stop m c).2.1 = (stopAllServices m.services).2.1 := rfl
  rw [hev] at hp
  exact edges_stopAll m.services h p hp

theorem edges_shutdown (m : Manager) (c : Ctx) (h : InvM m) :
    ∀ p ∈ transEdges (Shutdown m c).2.1, exhibitedEdge p.1 p.2 = true := by
  intro p hp
  have hev : (Shutdown m c).2.1
      = Event.shutdownCall c :: (Stop (cancelRoot m) c).2.1 := rfl
  rw [hev, transEdges_shutdownCall] at hp
  exact edges_stop (cancelRoot m) c (invM_cancelRoot m h) p hp

theorem findRec_mem (l : List ServiceRec) (n : String) (r : ServiceRec)
    (h : findRec l n = some r) : r ∈ l :=
  List.mem_of_find?_eq_some h

theorem edges_startService (m : Manager) (n : String) (h : InvM m) :
    ∀ p ∈ transEdges (StartService m n).2.1, exhibitedEdge p.1 p.2 = true := by
  rcases hf : findRec m.services n with _ | r
  · intro p hp
    simp [StartService, hf, transEdges] at hp
  · by_cases hr : r.state = .running
    · intro p hp
      simp [StartService, hf, hr, transEdges] at hp
    · have hinv := h r (findRec_mem m.services n r hf)
      intro p hp
      simp only [StartService, hf, if_neg hr] at hp
      exact edges_startProbe r hinv.1 hr p hp

theorem edges_stopService (m : Manager) (n : String) (h : InvM m) :
    ∀ p ∈ transEdges (StopService m n).2.1, exhibitedEdge p.1 p.2 = true := by
  rcases hf : findRec m.services n with _ | r
  · intro p hp
    simp [StopService, hf, transEdges] at hp
  · by_cases hstp : r.state = .stopped
    · intro p hp
      simp [StopService, hf, hstp, transEdges] at hp
    · have hinv := h r (findRec_mem m.services n r hf)
      cases hst : r.state
      all_goals try exact absurd hst hinv.1
      all_goals try exact absurd hst hstp
      all_goals
        by_cases htr : r.taskRunning <;>
          rcases hsr : r.service.stopResult with _ | e <;>
          rcases hres : r.service.behavior.result with _ | e' <;>
          simp [StopService, hf, waitUnwind, taskReturn, setState, hst, hsr,
            hres, htr, transEdges] <;> decide

theorem edges_taskReturn (r : ServiceRec)
    (h : r.state = .running ∨ r.state = .stopping ∨ r.state = .error) :
    ∀ p ∈ transEdges (taskReturn r).2, exhibitedEdge p.1 p.2 = true := by
  rcases hres : r.service.behavior.result with _ | e <;>
    rcases h with hst | hst | hst <;>
    simp [taskReturn, setState, transEdges, hres, hst] <;> decide

theorem edges_taskCompletes (m : Manager) (n : String) (h : InvM m) :
    ∀ p ∈ transEdges (taskCompletes m n).2, exhibitedEdge p.1 p.2 = true := by
  rcases hf : findRec m.services n with _ | r
  · intro p hp
    simp [taskCompletes, hf, transEdges] at hp
  · by_cases hc : r.taskRunning && canReturnNow r
    · have htr : r.taskRunning = true := by
        cases hr1 : r.taskRunning
        · rw [hr1] at hc
          simp at hc
        · rfl
      have hinv := h r (findRec_mem m.services n r hf)
      intro p hp
      simp only [taskCompletes, hf, hc, if_pos rfl] at hp
      exact edges_taskReturn r (hinv.2.1 htr) p hp
    · intro p hp
      simp [taskCompletes, hf, hc, transEdges] at hp

theorem edges_run (m : Manager) (t : Trigger) (timedOut : Bool) (h : InvM m) :
    ∀ p ∈ transEdges (RunWithGracefulShutdown m t timedOut).2.1,
      exhibitedEdge p.1 p.2 = true := by
  have hstart := edges_start m h
  have hinv' := invM_start m h
  rcases hS : Start m with ⟨m', evs, res⟩
  rw [hS] at hstart hinv'
  simp only at hstart hinv'
  rcases res with _ | e
  · rcases t with _ | _ | _
    · intro p hp
      simp only [RunWithGracefulShutdown, hS, transEdges_append,
        List.mem_append] at hp
      rcases hp with hp | hp
      · exact hstart p hp
      · exact edges_shutdown m' .caller hinv' p hp
    · rcases timedOut with _ | _
      · intro p hp
        simp only [RunWithGracefulShutdown, hS, gracefulShutdown,
          Bool.false_eq_true, if_false, transEdges_append,
          List.mem_append] at hp
        rcases hp with hp | hp
        · exact hstart p hp
        · exact edges_shutdown m' (.withTimeout m'.shutdownTimeout) hinv' p hp
      · intro p hp
        simp only [RunWithGracefulShutdown, hS, gracefulShutdown, if_true,
          transEdges_append, List.mem_append] at hp
        rcases hp with hp | hp
        · exact hstart p hp
        · rw [transEdges_shutdownCall] at hp
          exact edges_shutdown m' .background hinv' p hp
    · intro p hp
      simp only [RunWithGracefulShutdown, hS, transEdges_append,
        List.mem_append] at hp
      rcases hp with hp | hp
      · exact hstart p hp
      · exact edges_shutdown m' .background hinv' p hp
  · intro p hp
    simp only [RunWithGracefulShutdown, hS] at hp
    exact hstart p hp


/-! ### Example services and managers used in concrete instantiations -/

/-- A service that blocks until cancelled and stops cleanly. -/
def exRun : Service :=
  { name := "A", behavior := .runUntilCancel none, stopResult := none }

/-- A service whose start fails within the probe window. -/
def exFail : Service :=
  { name := "B", behavior := .failFast "boom", stopResult := none }

/-- A service that blocks until cancelled but whose `Stop` errors. -/
def exStopErr : Service :=
  { name := "C", behavior := .runUntilCancel none, stopResult := some "bad" }

/-- A record for exRun currently in state Running. -/
def exRecRunning : ServiceRec :=
  { service := exRun, state := .running, lastError := none,
    cancelled := false, taskRunning := true }

/-- A record for a second service currently in state Stopped. -/
def exRecStopped : ServiceRec :=
  { service := { name := "B", behavior := .runUntilCancel none,
                 stopResult := none },
    state := .stopped, lastError := none,
    cancelled := false, taskRunning := false }

/-- A manager holding one Running and one Stopped record. -/
def exMixed : Manager :=
  { services := [exRecRunning, exRecStopped],
    shutdownTimeout := 30000, serviceSequence := .SequenceNone,
    rootCancelled := false }

/-- A record for exStopErr currently in state Running. -/
def exRecStopErr : ServiceRec :=
  { service := exStopErr, state := .running, lastError := none,
    cancelled := false, taskRunning := true }

/-- A manager holding exRecRunning, exRecStopErr and exRecStopped, in
that registration order. -/
def exStopMgr : Manager :=
  { services := [exRecRunning, exRecStopErr, exRecStopped],
    shutdownTimeout := 30000, serviceSequence := .SequenceNone,
    rootCancelled := false }

/-- Witness for C4: on the concrete manager exStopMgr the stop calls
happen in reverse registration order skipping the Stopped record, and
the one stop failure is aggregated into the returned error. -/
theorem c4_witness :
    stopCallNames (Stop exStopMgr .background).2.1 = ["C", "A"] ∧
    (Stop exStopMgr .background).2.2 = some (.stopErrors [("C", "bad")]) := by
  have h := c4_stop_all exStopMgr .background
  refine ⟨?_, ?_⟩
  · rw [h.2.2.2.1]
    decide
  · rw [h.2.2.2.2]
    decide

/-- Witness for C1: on the concrete manager holding exRun then exFail,
the batch start fails naming B with its error, and afterwards nothing
is Running. -/
theorem c1_witness :
    (Start (registerAll NewManager [exRun, exFail]).1).2.2
      = some (.startFailed "B" (some "boom")) ∧
    (∀ x ∈ (Start (registerAll NewManager [exRun, exFail]).1).1.services,
      x.state ≠ .running) := by
  have h := (c1_start_all_or_nothing (registerAll NewManager [exRun, exFail]).1).2.2
    [{ service := exRun, state := .stopped, lastError := none,
       cancelled := false, taskRunning := false }]
    { service := exFail, state := .stopped, lastError := none,
      cancelled := false, taskRunning := false }
    [] (by decide) (by decide) (by decide)
  exact ⟨h.1, h.2.1⟩

/-! ### C3 -/

/-- A manager holding only exRecStopErr (Running, task still running,
stop will error). -/
def exStopErrMgr : Manager :=
  { services := [exRecStopErr],
    shutdownTimeout := 30000, serviceSequence := .SequenceNone,
    rootCancelled := false }

/-- C3 counterexample: on the concrete manager exStopErrMgr,
`StopService` returns the stop error while the record's goroutine is
still running (`taskRunning = true`): the completion barrier was not
waited on before the stop request returned, contradicting the claim
that the task is always awaited to completion. -/
theorem c3_counterexample :
    (StopService exStopErrMgr "C").2.2 = some (.stopFailed "C" "bad") ∧
    findRec (StopService exStopErrMgr "C").1.services "C"
      = some { service := exStopErr, state := .error, lastError := some "bad",
               cancelled := true, taskRunning := true } := by
  decide

theorem findRec_replaceRec : ∀ (l : List ServiceRec) (n : String)
    (r' : ServiceRec), (findRec l n).isSome → r'.service.name = n →
    findRec (replaceRec l n r') n = some r' := by
  intro l
  induction l with
  | nil => intro n r' h _; simp [findRec] at h
  | cons x rest ih =>
    intro n r' h hn
    by_cases hx : x.service.name = n
    · simp [replaceRec, findRec, hx, hn]
    · simp only [replaceRec, if_neg hx]
      simp only [findRec, List.find?_cons] at h ⊢
      simp only [hx, decide_False] at h ⊢
      exact ih n r' h hn

/-- C3 amended: when a stop operation errors the record is marked
Error in both stop paths, but only the batch stop (`stopAllServices`)
still awaits the goroutine's completion barrier before moving on;
`StopService` returns the stop error immediately, leaving the
goroutine un-awaited (`taskRunning` unchanged). -/
theorem c3_amended_stop_error_await :
    (∀ (r : ServiceRec) (e : Err), ¬ r.state = .stopped →
      r.service.stopResult = some e →
      Event.trans r.service.name .stopping .error ∈ (stopOne r).2.1 ∧
      (stopOne r).1.taskRunning = false) ∧
    (∀ (m : Manager) (name : String) (r : ServiceRec) (e : Err),
      findRec m.services name = some r → ¬ r.state = .stopped →
      r.service.stopResult = some e →
      (StopService m name).2.2 = some (.stopFailed name e) ∧
      ∃ r', findRec (StopService m name).1.services name = some r' ∧
        r'.state = .error ∧ r'.lastError = some e ∧
        r'.taskRunning = r.taskRunning) := by
  constructor
  · intro r e hs he
    exact ⟨stopOne_error_marked r e hs he, stopOne_taskDone r hs⟩
  · intro m name r e hfind hs he
    have hname : r.service.name = name := by
      have := List.find?_some hfind
      simpa using this
    simp only [StopService, hfind, if_neg hs, he, setState]
    refine ⟨trivial, ?_⟩
    refine ⟨_, findRec_replaceRec m.services name _ (by simp [hfind]) hname, rfl, rfl, rfl⟩

/-- Witness for the amended C3 at the concrete manager exStopErrMgr:
the batch-stop path clears the task while marking Error, and the
targeted path returns the error with the task still running. -/
theorem c3_witness :
    (Event.trans "C" .stopping .error ∈ (stopOne exRecStopErr).2.1 ∧
      (stopOne exRecStopErr).1.taskRunning = false) ∧
    ((StopService exStopErrMgr "C").2.2 = some (.stopFailed "C" "bad") ∧
      ∃ r', findRec (StopService exStopErrMgr "C").1.services "C" = some r' ∧
        r'.state = .error ∧ r'.lastError = some "bad" ∧
        r'.taskRunning = exRecStopErr.taskRunning) := by
  constructor
  · exact c3_amended_stop_error_await.1 exRecStopErr "bad" (by decide) (by decide)
  · exact c3_amended_stop_error_await.2 exStopErrMgr "C" exRecStopErr "bad"
      (by decide) (by decide) (by decide)


/-- Witness for C9 at a concrete manager holding one clean-running
service: the graceful path invokes one timeout-bounded shutdown, the
timed-out path escalates to a background-context shutdown, the forced
path goes straight to the background-context shutdown. -/
theorem c9_witness :
    (Start (Register NewManager exRun).1).2.2 = none ∧
    shutdownCalls (RunWithGracefulShutdown (Register NewManager exRun).1
        .gracefulSignal false).2.1 = [.withTimeout 30000] ∧
    shutdownCalls (RunWithGracefulShutdown (Register NewManager exRun).1
        .gracefulSignal true).2.1 = [.withTimeout 30000, .background] ∧
    shutdownCalls (RunWithGracefulShutdown (Register NewManager exRun).1
        .forcedSignal false).2.1 = [.background] := by
  have h := c9_graceful_shutdown (Register NewManager exRun).1 (by decide)
  exact ⟨by decide, h.2.1, h.2.2.1.2, (h.2.2.2 false).2⟩


/-! ### C10 -/

/-- C10: on every reachable manager, whenever a record's state reads
Error the status snapshot carries a non-nil last error for it — every
path that flips a record to Error first stores the non-nil triggering
error into lastError. -/
theorem c10_error_has_lasterror (m : Manager) (h : Reachable m) :
    ∀ info ∈ GetStatus m, info.state = .error → ¬ info.error = none := by
  intro info hi herr
  simp only [GetStatus, List.mem_map] at hi
  obtain ⟨r, hr, rfl⟩ := hi
  exact (reachable_inv m h r hr).2.2 herr

/-- A reachable manager whose single record is in state Error: exFail
registered then started by name (its task fails inside the probe
window, and StartService performs no rollback). -/
def exFailMgr : Manager :=
  (applyOp (applyOp (mkManager 5 .SequenceNone) (.register exFail)).1
    (.startService "B")).1

/-- Witness for C10 at the concrete reachable manager exFailMgr. -/
theorem c10_witness :
    GetStatus exFailMgr
      = [{ name := "B", state := .error, error := some "boom" }] ∧
    ¬ ({ name := "B", state := .error, error := some "boom" } : ServiceInfo).error
        = none := by
  refine ⟨by decide, ?_⟩
  exact c10_error_has_lasterror exFailMgr
    (Reachable.step _ (.startService "B")
      (Reachable.step _ (.register exFail) (Reachable.init 5 .SequenceNone)))
    _ (by decide) (by decide)


/-! ### C2 -/

/-- C2 counterexample: the rollback inside a failed batch start takes
the failed record from Error to Stopping — an edge absent from the
§4.2 list, so the state field does not move only along those edges. -/
theorem c2_counterexample :
    (ServiceState.error, ServiceState.stopping)
      ∈ transEdges (Start (registerAll NewManager [exRun, exFail]).1).2.1 ∧
    claimedEdge .error .stopping = false := by
  decide

/-- C2 amended: on every reachable manager, every state-changing write
performed by any operation or asynchronous task completion moves along
the §4.2 edges extended with Error→Starting and Stopping→Starting
(start requests are not guarded against Error or stuck-Stopping
records), Error→Stopping and Error→Stopped (stop requests and late
goroutine unwinds process Error records), and Starting→Stopped /
Stopped→Running (a task returning cleanly inside the probe window
flips to Stopped and is then overwritten to Running by the probe);
moreover a running task that returns without error on its own still
moves its record exactly from Running to Stopped. -/
theorem c2_amended_edges (m : Manager) (h : Reachable m) :
    (∀ op : Op, ∀ p ∈ transEdges (applyOp m op).2.1,
      exhibitedEdge p.1 p.2 = true) ∧
    (∀ (name : String) (r : ServiceRec), findRec m.services name = some r →
      r.state = .running → r.taskRunning = true →
      r.service.behavior = .runThenExit none →
      (applyOp m (.taskDone name)).2.1
        = [.trans r.service.name .running .stopped]) := by
  have hInv := reachable_inv m h
  constructor
  · intro op
    rcases op with svc | _ | c | n | n | c | ⟨t, timedOut⟩ | n
    · intro p hp
      simp [applyOp, transEdges] at hp
    · exact edges_start m hInv
    · exact edges_stop m c hInv
    · exact edges_startService m n hInv
    · exact edges_stopService m n hInv
    · exact edges_shutdown m c hInv
    · exact edges_run m t timedOut hInv
    · intro p hp
      simp only [applyOp] at hp
      exact edges_taskCompletes m n hInv p hp
  · intro name r hf hrun htr hbe
    simp [applyOp, taskCompletes, hf, htr, canReturnNow, hbe, taskReturn,
      TaskBehavior.result, setState, hrun]

/-- A service whose task runs past the probe window and later returns
cleanly on its own. -/
def exSpont : Service :=
  { name := "S", behavior := .runThenExit none, stopResult := none }

/-- The record exSpont holds after a successful start. -/
def exSpontRec : ServiceRec :=
  { service := exSpont, state := .running, lastError := none,
    cancelled := false, taskRunning := true }

/-- A reachable manager holding exSpont in state Running with its task
still running. -/
def exSpontMgr : Manager :=
  (applyOp (applyOp (mkManager 7 .SequenceNone) (.register exSpont)).1
    .start).1

/-- Witness for the amended C2 at the concrete reachable manager
exSpontMgr: the spontaneous clean return of the running task moves its
record exactly from Running to Stopped. -/
theorem c2_witness :
    (applyOp exSpontMgr (.taskDone "S")).2.1
      = [.trans "S" .running .stopped] := by
  have hreach : Reachable exSpontMgr :=
    Reachable.step _ .start
      (Reachable.step _ (.register exSpont) (Reachable.init 7 .SequenceNone))
  exact (c2_amended_edges exSpontMgr hreach).2 "S" exSpontRec
    (by decide) (by decide) (by decide) (by decide)


/-! ### C5 -/

/-- C5: for every sequence of registrations with pairwise distinct
names, each `Register` call succeeds and `GetStatus` afterwards lists
exactly those names in registration order; registering a name already
present fails with the duplicate-name error and leaves the registry
unchanged. -/
theorem c5_register_status :
    (∀ svcs : List Service, (svcs.map Service.name).Nodup →
      (∀ e ∈ (registerAll NewManager svcs).2, e = none) ∧
      (GetStatus (registerAll NewManager svcs).1).map ServiceInfo.name
        = svcs.map Service.name) ∧
    (∀ (m : Manager) (svc : Service), svc.name ∈ recNames m.services →
      Register m svc = (m, some (.duplicateName svc.name))) := by
  refine ⟨?_, register_mem⟩
  intro svcs hnd
  have h := registerAll_ok svcs NewManager
    (by simpa [NewManager, mkManager, recNames] using hnd)
  refine ⟨h.1, ?_⟩
  rw [getStatus_names, h.2]
  simp [NewManager, mkManager, recNames]

/-- Witness for C5 at the concrete two-element registration
[exRun, exFail] and the concrete duplicate registration of exRun into
the resulting manager. -/
theorem c5_witness :
    ((∀ e ∈ (registerAll NewManager [exRun, exFail]).2, e = none) ∧
      (GetStatus (registerAll NewManager [exRun, exFail]).1).map ServiceInfo.name
        = ["A", "B"]) ∧
    Register (registerAll NewManager [exRun, exFail]).1 exRun
      = ((registerAll NewManager [exRun, exFail]).1,
         some (.duplicateName "A")) := by
  constructor
  · exact c5_register_status.1 [exRun, exFail] (by decide)
  · exact c5_register_status.2 (registerAll NewManager [exRun, exFail]).1 exRun
      (by decide)

/-! ### C6 -/

/-- C6: `StartService` and `StopService` fail with the not-found error
on an unknown name without mutating anything; `StartService` fails
with the already-running error on a Running record and `StopService`
with the not-running error on a Stopped record, in each case without
performing the start or stop (no events, manager unchanged). -/
theorem c6_targeted_errors (m : Manager) (name : String) :
    (findRec m.services name = none →
      StartService m name = (m, [], some (.notFound name)) ∧
      StopService m name = (m, [], some (.notFound name))) ∧
    (∀ r, findRec m.services name = some r →
      (r.state = .running →
        StartService m name = (m, [], some (.alreadyRunning name))) ∧
      (r.state = .stopped →
        StopService m name = (m, [], some (.notRunning name)))) := by
  refine ⟨fun h => ⟨?_, ?_⟩, fun r h => ⟨fun hs => ?_, fun hs => ?_⟩⟩
  · simp [StartService, h]
  · simp [StopService, h]
  · simp [StartService, h, hs]
  · simp [StopService, h, hs]

/-- Witness for C6: the ghost name is absent, record A is Running and
record B is Stopped in the concrete manager exMixed. -/
theorem c6_witness :
    StopService exMixed "ghost" = (exMixed, [], some (.notFound "ghost")) ∧
    StartService exMixed "A" = (exMixed, [], some (.alreadyRunning "A")) ∧
    StopService exMixed "B" = (exMixed, [], some (.notRunning "B")) := by
  refine ⟨((c6_targeted_errors exMixed "ghost").1 (by decide)).2, ?_, ?_⟩
  · exact ((c6_targeted_errors exMixed "A").2 exRecRunning (by decide)).1 (by decide)
  · exact ((c6_targeted_errors exMixed "B").2 exRecStopped (by decide)).2 (by decide)

/-! ### C7 -/

/-- C7: calling `Shutdown` twice in sequence on a manager whose
records are all Stopped returns no error both times; the second call
skips every record and leaves the record list unchanged. -/
theorem cancelRoot_all_stopped (m : Manager)
    (h : ∀ r ∈ m.services, r.state = .stopped) :
    ∀ r ∈ (cancelRoot m).services, r.state = .stopped := by
  intro r hr
  simp only [cancelRoot, List.mem_map] at hr
  obtain ⟨x, hx, rfl⟩ := hr
  exact h x hx

theorem shutdown_all_stopped (m : Manager) (c : Ctx)
    (h : ∀ r ∈ m.services, r.state = .stopped) :
    Shutdown m c = (cancelRoot m, [.shutdownCall c], none) := by
  have h₁ := stopAllServices_all_stopped _ (cancelRoot_all_stopped m h)
  simp [Shutdown, Stop, h₁]

theorem cancelRoot_idem (m : Manager) : cancelRoot (cancelRoot m) = cancelRoot m := by
  cases m
  simp [cancelRoot, List.map_map]

theorem c7_shutdown_idempotent (m : Manager) (c c' : Ctx)
    (h : ∀ r ∈ m.services, r.state = .stopped) :
    (Shutdown m c).2.2 = none ∧
    (Shutdown (Shutdown m c).1 c').2.2 = none ∧
    (Shutdown (Shutdown m c).1 c').1.services = (Shutdown m c).1.services := by
  have h₁ := shutdown_all_stopped m c h
  have hm₁ : (Shutdown m c).1 = cancelRoot m := by rw [h₁]
  have h₂ := shutdown_all_stopped (cancelRoot m) c' (cancelRoot_all_stopped m h)
  refine ⟨by rw [h₁], by rw [hm₁, h₂], ?_⟩
  rw [hm₁, h₂, cancelRoot_idem]

/-- Witness for C7: a concrete manager holding one Stopped record. -/
theorem c7_witness :
    (∀ r ∈ (Register NewManager exRun).1.services, r.state = .stopped) ∧
    (Shutdown (Register NewManager exRun).1 .background).2.2 = none ∧
    (Shutdown (Shutdown (Register NewManager exRun).1 .background).1
        .background).2.2 = none := by
  have h : ∀ r ∈ (Register NewManager exRun).1.services, r.state = .stopped := by
    decide
  have h₂ := c7_shutdown_idempotent (Register NewManager exRun).1 .background
    .background h
  exact ⟨h, h₂.1, h₂.2.1⟩

end Svc
